import Mathlib

/-!
Shallow embedding of the table-extraction backend
(src/backend/services/pdf_tables.py, src/backend/services/ollama_clean.py,
src/backend/services/main.py) and proofs of the specification's claims
about it.

Raw cells coming out of the PDF library are either a string or the
Python None marker; we model them as `Option String`.  Python's
str.strip is modelled by the executable pyStrip below.
-/

namespace PdfExtractor

/-- A raw cell as delivered by the page segmenter: a string or None. -/
abbrev Cell := Option String

/-- Whitespace as Python's str.strip removes it (restricted to the
ASCII whitespace that PDF cell text contains). -/
def isSpace (c : Char) : Bool := c = ' ' || c = '\t' || c = '\n' || c = '\r'

/-- Drop leading whitespace characters. -/
def dropLeading : List Char → List Char
  | [] => []
  | c :: cs => if isSpace c then dropLeading cs else c :: cs

/-- Python's str.strip on the character list: remove leading and
trailing whitespace. -/
def pyStripChars (cs : List Char) : List Char :=
  ((dropLeading ((dropLeading cs).reverse)).reverse)

/-- Python's str.strip. -/
def pyStrip (s : String) : String := String.mk (pyStripChars s.data)

/-- The test `c is None or str(c).strip() == ""` from pdf_tables.py. -/
def cellBlank (c : Cell) : Bool :=
  match c with
  | none => true
  | some s => pyStrip s == ""

/-- Header-cell translation `str(c).strip() if c is not None else ""`
(pdf_tables.py line 19). -/
def headerCell (c : Cell) : String :=
  match c with
  | some s => pyStrip s
  | none => ""

/-- Data-cell translation
`None if (c is None or str(c).strip() == "") else c`
(pdf_tables.py line 26).  Note the non-blank branch keeps the original
cell value, untrimmed. -/
def cleanCell (c : Cell) : Cell :=
  if cellBlank c then none else c

/-- One pass of the data-row cleaning loop body (pdf_tables.py line 26). -/
def cleanRow (r : List Cell) : List Cell := r.map cleanCell

/-- The header-row guard
`row and any(cell is not None and str(cell).strip() != "" for cell in row)`
(pdf_tables.py line 18). -/
def rowNonBlank (r : List Cell) : Bool :=
  !r.isEmpty && r.any (fun c => !cellBlank c)

/-- Result of `_normalize_table`: the dict `{"headers": ..., "rows": ...}`. -/
structure NormResult where
  headers : List String
  rows : List (List Cell)
deriving DecidableEq, Repr

/-- The header-finding loop of `_normalize_table` (pdf_tables.py lines
17-21): scan rows top to bottom; at the first row passing the non-blank
guard, emit the header translation of that row and the remaining rows
as data rows; if no row passes, both stay empty. -/
def headerSplit : List (List Cell) → List String × List (List Cell)
  | [] => ([], [])
  | row :: rest =>
    if rowNonBlank row then (row.map headerCell, rest)
    else headerSplit rest

/-- Translation of `_normalize_table` (pdf_tables.py lines 12-28). -/
def normalize_table (raw : List (List Cell)) : NormResult :=
  let p := headerSplit raw
  ⟨p.1, p.2.map cleanRow⟩

/-! ## extract_tables (pdf_tables.py lines 31-58) -/

/-- A raw grid as returned by the page's table extractor. -/
abbrev RawGrid := List (List Cell)

/-- Per page, the results of the two library calls: the line-based
(primary) call with explicit table settings and the default (secondary)
call.  The library is an external collaborator; each call yields a list
of raw grids or None. -/
structure PageInput where
  primary : Option (List RawGrid)
  secondary : Option (List RawGrid)

/-- Python's `x or []` applied to the library's return value. -/
def orEmpty (x : Option (List RawGrid)) : List RawGrid := x.getD []

/-- The per-page strategy choice (pdf_tables.py lines 44-46): take the
primary result; if it is empty, use the secondary result. -/
def chosenGrids (pg : PageInput) : List RawGrid :=
  let p := orEmpty pg.primary
  if p.isEmpty then orEmpty pg.secondary else p

/-- The canonical Table record appended for each raw grid
(pdf_tables.py lines 50-57). -/
structure Table where
  page : Nat
  table_index : Nat
  headers : List String
  rows : List (List Cell)
deriving DecidableEq, Repr

/-- The inner `for t_idx, raw in enumerate(raw_tables)` loop
(pdf_tables.py lines 48-57), with the running enumeration index made
explicit. -/
def pageTablesGo (p_idx : Nat) : Nat → List RawGrid → List Table
  | _, [] => []
  | t_idx, raw :: rest =>
    let n := normalize_table raw
    ⟨p_idx, t_idx, n.headers, n.rows⟩ :: pageTablesGo p_idx (t_idx + 1) rest

/-- All tables appended while processing one page. -/
def pageTables (p_idx : Nat) (pg : PageInput) : List Table :=
  pageTablesGo p_idx 0 (chosenGrids pg)

/-- The outer `for p_idx, page in enumerate(pdf.pages, start=1)` loop
(pdf_tables.py lines 34-57), with the running page number explicit. -/
def extractTablesGo : Nat → List PageInput → List Table
  | _, [] => []
  | p_idx, pg :: rest => pageTables p_idx pg ++ extractTablesGo (p_idx + 1) rest

/-- Translation of `extract_tables` (pdf_tables.py lines 31-58): pages are numbered
from 1. -/
def extract_tables (pages : List PageInput) : List Table :=
  extractTablesGo 1 pages

/-- The output order required of the table sequence: page ascending,
and table_index ascending within a page. -/
def pageLex (a b : Table) : Prop :=
  a.page < b.page ∨ (a.page = b.page ∧ a.table_index < b.table_index)

/-! ## clean_tables_with_ollama (ollama_clean.py lines 21-45)

The HTTP client and Python's json module are external collaborators.
We model a JSON value, the observable outcome of the POST call (a
transport error, or a response with a status code and a body that may
or may not parse as JSON), and Python's `json.loads` applied to the
inner response text as a parser argument `jsonLoads`.  Exceptions in
the Python code are modelled by the branches that return the original
list, mirroring the enclosing `try/except` that returns `tables`. -/

/-- A JSON value, as produced by `resp.json()` / `json.loads`. -/
inductive Json where
  | null
  | bool (b : Bool)
  | num (n : Int)
  | str (s : String)
  | arr (xs : List Json)
  | obj (fields : List (String × Json))

/-- Python dict lookup on a decoded JSON object (first binding wins). -/
def lookupField : List (String × Json) → String → Option Json
  | [], _ => none
  | (k, v) :: rest, key => if k = key then some v else lookupField rest key

/-- Translation of `data.get("response", "").strip()` (ollama_clean.py line 37):
defined when `data` is an object whose "response" field is absent
(default "") or a string; any other shape raises AttributeError, which
the enclosing except swallows (modelled by `none`). -/
def innerText (j : Json) : Option String :=
  match j with
  | Json.obj fields =>
    match lookupField fields "response" with
    | none => some ""
    | some (Json.str s) => some (pyStrip s)
    | some _ => none
  | _ => none

/-- The call `resp.raise_for_status()` does not raise exactly for 2xx statuses. -/
def httpSuccess (status : Nat) : Bool := 200 ≤ status && status ≤ 299

/-- The observable outcome of the POST to the cleanup service: either a
transport/timeout error, or a response carrying a status code and the
result of parsing its body as JSON (`none` when the body is not JSON). -/
inductive CallOutcome where
  | transportError
  | response (status : Nat) (body : Option Json)

/-- Translation of `clean_tables_with_ollama` (ollama_clean.py lines 21-45).  The
input table list and the returned value are JSON values (Python lists
of dicts); `jsonLoads` models `json.loads` on the inner response text.
Every exception path of the Python code returns `tables` via the
`except` clause; the only other exit returns the parsed list. -/
def clean_tables_with_ollama (jsonLoads : String → Option Json)
    (tables : List Json) (outcome : CallOutcome) : List Json :=
  match outcome with
  | CallOutcome.transportError => tables
  | CallOutcome.response status body =>
    if !httpSuccess status then tables
    else
      match body with
      | none => tables
      | some j =>
        match innerText j with
        | none => tables
        | some text =>
          match jsonLoads text with
          | some (Json.arr xs) => xs
          | _ => tables

/-- The failure condition of the cleanup call: every path of
`clean_tables_with_ollama` that does not end in a successfully parsed
JSON array (transport error, non-2xx status, non-JSON body, body whose
"response" text is unavailable, inner text that is not JSON or not a
JSON array). -/
def cleanupFails (jsonLoads : String → Option Json)
    (outcome : CallOutcome) : Bool :=
  match outcome with
  | CallOutcome.transportError => true
  | CallOutcome.response status body =>
    if !httpSuccess status then true
    else
      match body with
      | none => true
      | some j =>
        match innerText j with
        | none => true
        | some text =>
          match jsonLoads text with
          | some (Json.arr _) => false
          | _ => true

/-! ## CSV export (main.py lines 161-168 and 189-196)

Both export endpoints drive Python's csv.writer with its default
dialect over `["" if (c is None) else c for c in r]`.  csv.writer and
csv.reader are stdlib collaborators; we model them at the character
level.  Default-dialect behaviour (verified against the csv module):
fields containing a comma, a double quote, CR or LF are quoted with
internal quotes doubled; a row consisting of a single empty field is
written as a pair of quotes; records end with CR LF; the reader yields
an empty record for a blank line and treats a quote inside an unquoted
field literally. -/

/-- Characters that force csv.writer's minimal quoting. -/
def specialChar (c : Char) : Bool :=
  c = ',' || c = '"' || c = '\r' || c = '\n'

/-- Whether csv.writer quotes this field under QUOTE_MINIMAL. -/
def needsQuote (s : List Char) : Bool := s.any specialChar

/-- csv.writer's doubling of the quote character inside quoted fields. -/
def escapeQuotes : List Char → List Char
  | [] => []
  | c :: cs =>
    if c = '"' then '"' :: '"' :: escapeQuotes cs else c :: escapeQuotes cs

/-- One field as csv.writer renders it. -/
def encodeField (s : List Char) : List Char :=
  if needsQuote s then '"' :: (escapeQuotes s ++ ['"']) else s

/-- Fields of one record joined by the delimiter. -/
def joinFields : List (List Char) → List Char
  | [] => []
  | [f] => encodeField f
  | f :: rest => encodeField f ++ ',' :: joinFields rest

/-- csv.writer.writerow: joined fields plus the CR LF terminator, with
the writer's special case that a row holding a single empty field is
written as an explicit pair of quotes. -/
def writeRow (r : List (List Char)) : List Char :=
  (match r with
   | [f] => if f.isEmpty then ['"', '"'] else encodeField f
   | _ => joinFields r) ++ ['\r', '\n']

/-- Translation of `"" if (c is None) else c` (main.py lines 168 and 196). -/
def collapseCell (c : Cell) : List Char := (c.getD "").data

/-- One data row as written by the export loops. -/
def writeDataRow (r : List Cell) : List Char := writeRow (r.map collapseCell)

/-- The CSV text both export endpoints produce for one table: the
header row only when `headers` is non-empty, then every data row
(main.py lines 163-168, identically lines 189-196). -/
def writeTableCsv (headers : List String) (rows : List (List Cell)) : List Char :=
  (if headers.isEmpty then [] else writeRow (headers.map String.data)) ++
    (rows.map writeDataRow).flatten

/-- The CSV body streamed by `export_single_csv` (main.py lines 161-168). -/
def export_single_csv (t : Table) : List Char := writeTableCsv t.headers t.rows

/-- The archive member name `page_{page}_table_{ti}.csv` (main.py line 197). -/
def csvName (page : Nat) (ti : Nat) : String :=
  "page_" ++ toString page ++ "_table_" ++ toString ti ++ ".csv"

/-- The ZIP built by `export_all_zip` (main.py lines 184-197), as its
list of (member name, CSV body) entries; the per-table body logic is
the same lines of code as in the single-table endpoint. -/
def export_all_zip (tables : List Table) : List (String × List Char) :=
  tables.map fun t => (csvName t.page t.table_index, writeTableCsv t.headers t.rows)

/-! ### A model of csv.reader, for the round-trip claim.

Modelled from the spec: re-parsing the exported CSV is done by Python's
csv.reader (stdlib, outside this repository); the spec's round-trip
property (section 8) presumes its default-dialect semantics.  The
reader is a character-driven state machine: outside quotes a comma ends
a field and CR LF ends a record, a quote opens a quoted field at a
field start and is literal elsewhere, inside quotes a doubled quote
denotes one quote character, and a blank line yields an empty record. -/

/-- Reader states: start of a record, start of a field after a
delimiter, inside an unquoted field, inside a quoted field, just after
a quote inside a quoted field, and after a CR awaiting the LF. -/
inductive CMode where
  | startRecord
  | startField
  | inField
  | inQuoted
  | quoteInQuoted
  | eatCRNL
deriving DecidableEq, Repr

/-- Reader state: mode, the field and record being accumulated, and the
records already emitted. -/
structure CsvSt where
  mode : CMode
  field : List Char
  row : List (List Char)
  rows : List (List (List Char))
deriving DecidableEq, Repr

/-- One character step of the reader. -/
def stepChar (s : CsvSt) (c : Char) : CsvSt :=
  match s.mode with
  | CMode.startRecord =>
    if c = '\r' then ⟨CMode.eatCRNL, [], [], s.rows ++ [[]]⟩
    else if c = '\n' then ⟨CMode.startRecord, [], [], s.rows ++ [[]]⟩
    else if c = '"' then ⟨CMode.inQuoted, [], [], s.rows⟩
    else if c = ',' then ⟨CMode.startField, [], [[]], s.rows⟩
    else ⟨CMode.inField, [c], [], s.rows⟩
  | CMode.startField =>
    if c = '\r' then ⟨CMode.eatCRNL, [], [], s.rows ++ [s.row ++ [[]]]⟩
    else if c = '\n' then ⟨CMode.startRecord, [], [], s.rows ++ [s.row ++ [[]]]⟩
    else if c = '"' then ⟨CMode.inQuoted, [], s.row, s.rows⟩
    else if c = ',' then ⟨CMode.startField, [], s.row ++ [[]], s.rows⟩
    else ⟨CMode.inField, [c], s.row, s.rows⟩
  | CMode.inField =>
    if c = '\r' then ⟨CMode.eatCRNL, [], [], s.rows ++ [s.row ++ [s.field]]⟩
    else if c = '\n' then ⟨CMode.startRecord, [], [], s.rows ++ [s.row ++ [s.field]]⟩
    else if c = ',' then ⟨CMode.startField, [], s.row ++ [s.field], s.rows⟩
    else ⟨CMode.inField, s.field ++ [c], s.row, s.rows⟩
  | CMode.inQuoted =>
    if c = '"' then ⟨CMode.quoteInQuoted, s.field, s.row, s.rows⟩
    else ⟨CMode.inQuoted, s.field ++ [c], s.row, s.rows⟩
  | CMode.quoteInQuoted =>
    if c = '"' then ⟨CMode.inQuoted, s.field ++ ['"'], s.row, s.rows⟩
    else if c = ',' then ⟨CMode.startField, [], s.row ++ [s.field], s.rows⟩
    else if c = '\r' then ⟨CMode.eatCRNL, [], [], s.rows ++ [s.row ++ [s.field]]⟩
    else if c = '\n' then ⟨CMode.startRecord, [], [], s.rows ++ [s.row ++ [s.field]]⟩
    else ⟨CMode.inField, s.field ++ [c], s.row, s.rows⟩
  | CMode.eatCRNL =>
    if c = '\n' then ⟨CMode.startRecord, [], [], s.rows⟩
    else if c = '\r' then ⟨CMode.eatCRNL, [], [], s.rows⟩
    else if c = '"' then ⟨CMode.inQuoted, [], [], s.rows⟩
    else if c = ',' then ⟨CMode.startField, [], [[]], s.rows⟩
    else ⟨CMode.inField, [c], [], s.rows⟩

/-- End of input: flush any pending field/record. -/
def finishCsv (s : CsvSt) : List (List (List Char)) :=
  match s.mode with
  | CMode.startRecord => s.rows
  | CMode.eatCRNL => s.rows
  | CMode.startField => s.rows ++ [s.row ++ [[]]]
  | CMode.inField => s.rows ++ [s.row ++ [s.field]]
  | CMode.inQuoted => s.rows ++ [s.row ++ [s.field]]
  | CMode.quoteInQuoted => s.rows ++ [s.row ++ [s.field]]

/-- The reader's initial state. -/
def initSt : CsvSt := ⟨CMode.startRecord, [], [], []⟩

/-- Parse a whole CSV text into its records. -/
def parseCSV (input : List Char) : List (List (List Char)) :=
  finishCsv (input.foldl stepChar initSt)

/-! ## Helper lemmas about the normalizer -/

/-- Every data row selected by the header scan is a row of the grid. -/
theorem headerSplit_mem_snd : ∀ {raw : List (List Cell)} {r : List Cell},
    r ∈ (headerSplit raw).2 → r ∈ raw := by
  intro raw
  induction raw with
  | nil => intro r h; simp [headerSplit] at h
  | cons row rest ih =>
    intro r h
    by_cases hg : rowNonBlank row = true
    · simp [headerSplit, hg] at h
      exact List.mem_cons_of_mem _ h
    · simp only [headerSplit, hg, if_false, Bool.false_eq_true] at h
      exact List.mem_cons_of_mem _ (ih h)

/-- On a rectangular grid the selected headers and every selected data
row have the common width. -/
theorem headerSplit_lengths : ∀ {raw : List (List Cell)} {w : Nat},
    (∀ r ∈ raw, r.length = w) → (headerSplit raw).1 ≠ [] →
    (headerSplit raw).1.length = w ∧ ∀ d ∈ (headerSplit raw).2, d.length = w := by
  intro raw
  induction raw with
  | nil => intro w _ hne; simp [headerSplit] at hne
  | cons row rest ih =>
    intro w hrect hne
    by_cases hg : rowNonBlank row = true
    · refine ⟨?_, ?_⟩
      · simp [headerSplit, hg]
        exact hrect row (by simp)
      · intro d hd
        simp [headerSplit, hg] at hd
        exact hrect d (List.mem_cons_of_mem _ hd)
    · simp only [headerSplit, hg, if_false, Bool.false_eq_true] at hne ⊢
      exact ih (fun r hr => hrect r (List.mem_cons_of_mem _ hr)) hne

/-- Where the header scan stops: if row i is the topmost row passing
the non-blank guard, the scan returns that row's header translation and
the rows strictly after it. -/
theorem headerSplit_at : ∀ (raw : List (List Cell)) (i : Nat) (hi : i < raw.length),
    rowNonBlank (raw.get ⟨i, hi⟩) = true →
    (∀ j (hj : j < i), rowNonBlank (raw.get ⟨j, hj.trans hi⟩) = false) →
    headerSplit raw = ((raw.get ⟨i, hi⟩).map headerCell, raw.drop (i + 1)) := by
  intro raw
  induction raw with
  | nil => intro i hi; exact absurd hi (by simp)
  | cons row rest ih =>
    intro i hi hnb hprev
    cases i with
    | zero =>
      simp only [List.get] at hnb
      simp [headerSplit, hnb]
    | succ i' =>
      have h0 : rowNonBlank row = false := hprev 0 (Nat.succ_pos i')
      simp only [List.get] at hnb
      simp only [headerSplit, h0, if_false, Bool.false_eq_true, List.drop_succ_cons]
      exact ih i' (Nat.lt_of_succ_lt_succ hi) hnb
        (fun j hj => hprev (j + 1) (Nat.succ_lt_succ hj))

/-- A grid whose cells are all blank yields the empty split. -/
theorem headerSplit_all_blank : ∀ (raw : List (List Cell)),
    (∀ r ∈ raw, ∀ c ∈ r, cellBlank c = true) → headerSplit raw = ([], []) := by
  intro raw
  induction raw with
  | nil => intro _; rfl
  | cons row rest ih =>
    intro h
    have hg : rowNonBlank row = false := by
      simp only [rowNonBlank, Bool.and_eq_false_iff]
      right
      simp only [List.any_eq_false, Bool.not_eq_true']
      intro c hc
      simp [h row (by simp) c hc]
    simp only [headerSplit, hg, if_false, Bool.false_eq_true]
    exact ih (fun r hr => h r (List.mem_cons_of_mem _ hr))

/-! ## Claims about the normalizer -/

/-- Claim C1, counterexample: on the grid [["H"], [" x "]] the single
data cell is emitted with its original surrounding whitespace, not as
its trimmed content "x", so data cells are not trimmed as claimed. -/
theorem C1_counterexample :
    (normalize_table [[some "H"], [some " x "]]).rows = [[some " x "]] ∧
    (normalize_table [[some "H"], [some " x "]]).rows ≠ [[some "x"]] := by
  decide

/-- Claim C1 as amended: in every emitted data row, a cell that is
absent or trims to blank becomes the absence marker, and every other
cell keeps its original (untrimmed) value; the row length is unchanged;
hence no emitted data cell is an empty or all-whitespace string, though
it may carry surrounding whitespace. -/
theorem C1_data_row_cleaning (raw : List (List Cell)) (row : List Cell)
    (hrow : row ∈ (normalize_table raw).rows) :
    ∃ src, src ∈ raw ∧ row = src.map cleanCell ∧ row.length = src.length ∧
      ∀ c ∈ row, c = none ∨ ∃ s, c = some s ∧ pyStrip s ≠ "" := by
  obtain ⟨src, hsrc, rfl⟩ := List.mem_map.mp (by simpa [normalize_table] using hrow)
  refine ⟨src, headerSplit_mem_snd hsrc, rfl, by simp [cleanRow], ?_⟩
  intro c hc
  obtain ⟨c0, _, rfl⟩ := List.mem_map.mp hc
  by_cases hb : cellBlank c0 = true
  · left; simp [cleanCell, hb]
  · right
    cases c0 with
    | none => simp [cellBlank] at hb
    | some s =>
      refine ⟨s, ?_, ?_⟩
      · simp [cleanCell, hb]
      · simpa [cellBlank] using hb

/-- Witness for C1_data_row_cleaning at the grid [["H"], [" x "]]. -/
theorem C1_data_row_cleaning_witness :
    ∃ src, src ∈ ([[some "H"], [some " x "]] : List (List Cell)) ∧
      ([some " x "] : List Cell) = src.map cleanCell ∧
      ([some " x "] : List Cell).length = src.length ∧
      ∀ c ∈ ([some " x "] : List Cell), c = none ∨ ∃ s, c = some s ∧ pyStrip s ≠ "" :=
  C1_data_row_cleaning [[some "H"], [some " x "]] [some " x "] (by decide)

/-- Claim C2: on a rectangular raw grid (every grid row has the common
width w, which the segmenter guarantees by construction), whenever the
emitted headers are non-empty, every emitted data row has exactly the
headers' length. -/
theorem C2_row_lengths (raw : List (List Cell)) (w : Nat)
    (hrect : ∀ r ∈ raw, r.length = w)
    (hne : (normalize_table raw).headers ≠ []) :
    ∀ row ∈ (normalize_table raw).rows,
      row.length = (normalize_table raw).headers.length := by
  have hne' : (headerSplit raw).1 ≠ [] := by simpa [normalize_table] using hne
  obtain ⟨hlen, hds⟩ := headerSplit_lengths hrect hne'
  intro row hrow
  obtain ⟨src, hsrc, rfl⟩ := List.mem_map.mp (by simpa [normalize_table] using hrow)
  simp [normalize_table, cleanRow, hlen, hds src hsrc]

/-- Witness for C2_row_lengths on a concrete 2-wide grid. -/
theorem C2_row_lengths_witness :
    ([some "x", none] : List Cell).length =
      (normalize_table [[some "A", some "B"], [some "x", none]]).headers.length :=
  C2_row_lengths [[some "A", some "B"], [some "x", none]] 2 (by decide) (by decide)
    [some "x", none] (by decide)

/-- Claim C3: if row i is the topmost grid row with a non-blank cell,
the emitted headers are exactly that row with each cell trimmed and
each absent cell replaced by the empty string (length preserved), and
the emitted data rows are exactly the cleaned images of the rows
strictly after row i, in original order. -/
theorem C3_header_selection (raw : List (List Cell)) (i : Nat) (hi : i < raw.length)
    (hnb : rowNonBlank (raw.get ⟨i, hi⟩) = true)
    (hprev : ∀ j (hj : j < i), rowNonBlank (raw.get ⟨j, hj.trans hi⟩) = false) :
    (normalize_table raw).headers = (raw.get ⟨i, hi⟩).map headerCell ∧
    (normalize_table raw).headers.length = (raw.get ⟨i, hi⟩).length ∧
    (normalize_table raw).rows = (raw.drop (i + 1)).map cleanRow := by
  have h := headerSplit_at raw i hi hnb hprev
  refine ⟨?_, ?_, ?_⟩
  · simp [normalize_table, h]
  · simp [normalize_table, h]
  · simp [normalize_table, h]

/-- Witness for C3_header_selection: the second row of a grid whose
first row is blank becomes the headers. -/
theorem C3_header_selection_witness :
    (normalize_table [[some "  ", none], [some " Name ", some "Age"],
        [some "Ana", some "30"]]).headers =
      ([[some "  ", none], [some " Name ", some "Age"],
        [some "Ana", some "30"]].get ⟨1, by decide⟩).map headerCell :=
  (C3_header_selection
    [[some "  ", none], [some " Name ", some "Age"], [some "Ana", some "30"]]
    1 (by decide) (by decide) (by decide)).1

/-- Claim C4: a grid in which every cell of every row is absent or
blank (including the empty grid) normalizes to empty headers and empty
rows; the table is still produced, not rejected. -/
theorem C4_degenerate (raw : List (List Cell))
    (h : ∀ r ∈ raw, ∀ c ∈ r, cellBlank c = true) :
    normalize_table raw = ⟨[], []⟩ := by
  simp [normalize_table, headerSplit_all_blank raw h]

/-- Witness for C4_degenerate on a concrete all-blank grid. -/
theorem C4_degenerate_witness :
    normalize_table [[none, some "  "], []] = ⟨[], []⟩ :=
  C4_degenerate [[none, some "  "], []] (by decide)

/-- Claim C7: per page, the secondary strategy's result is used exactly
when the primary strategy's result is empty, and the chosen grids are
always wholly one strategy's result, never a combination. -/
theorem C7_strategy_choice (pg : PageInput) :
    (orEmpty pg.primary ≠ [] → chosenGrids pg = orEmpty pg.primary) ∧
    (orEmpty pg.primary = [] → chosenGrids pg = orEmpty pg.secondary) ∧
    (chosenGrids pg = orEmpty pg.primary ∨ chosenGrids pg = orEmpty pg.secondary) := by
  by_cases hp : orEmpty pg.primary = []
  · simp [chosenGrids, hp]
  · simp [chosenGrids, List.isEmpty_iff, hp]

/-- Witness for C7_strategy_choice: with an empty primary result the
secondary result is chosen. -/
theorem C7_strategy_choice_witness :
    chosenGrids ⟨some [], some [[[some "a"]]]⟩ = [[[some "a"]]] :=
  (C7_strategy_choice ⟨some [], some [[[some "a"]]]⟩).2.1 rfl

/-! ## Claims about the cleanup adapter -/

/-- Claim C5: whenever the cleanup call fails in any way (transport
error, non-2xx status, non-JSON body, unusable response field, inner
text that is not JSON or not a JSON array), the original table list is
returned unchanged; no error escapes, since the function is total. -/
theorem C5_silent_fallback (jsonLoads : String → Option Json) (tables : List Json)
    (outcome : CallOutcome) (h : cleanupFails jsonLoads outcome = true) :
    clean_tables_with_ollama jsonLoads tables outcome = tables := by
  cases outcome with
  | transportError => rfl
  | response status body =>
    by_cases hs : httpSuccess status = true
    · cases body with
      | none => simp [clean_tables_with_ollama, hs]
      | some j =>
        cases hit : innerText j with
        | none => simp [clean_tables_with_ollama, hs, hit]
        | some text =>
          cases hjl : jsonLoads text with
          | none => simp [clean_tables_with_ollama, hs, hit, hjl]
          | some v =>
            cases v <;>
              simp_all [clean_tables_with_ollama, cleanupFails, hs, hit, hjl]
    · simp [clean_tables_with_ollama, hs]

/-- Witness for C5_silent_fallback at a transport error. -/
theorem C5_silent_fallback_witness :
    cleanupFails (fun _ => none) CallOutcome.transportError = true ∧
    clean_tables_with_ollama (fun _ => none) [Json.str "t"]
      CallOutcome.transportError = [Json.str "t"] :=
  ⟨rfl, C5_silent_fallback (fun _ => none) [Json.str "t"]
    CallOutcome.transportError rfl⟩

/-- Claim C6, counterexample: a 200 response whose inner text parses as
the JSON array [1] — whose element is not an object with the four table
fields — is returned as the new table list, not replaced by the
original sequence. -/
theorem C6_counterexample :
    clean_tables_with_ollama (fun _ => some (Json.arr [Json.num 1]))
        [Json.obj [("page", Json.num 1), ("table_index", Json.num 0),
          ("headers", Json.arr []), ("rows", Json.arr [])]]
        (CallOutcome.response 200 (some (Json.obj [("response", Json.str "[1]")])))
      = [Json.num 1] ∧
    [Json.num 1] ≠
      [Json.obj [("page", Json.num 1), ("table_index", Json.num 0),
        ("headers", Json.arr []), ("rows", Json.arr [])]] := by
  refine ⟨rfl, ?_⟩
  intro h
  injection h with h1 h2
  exact Json.noConfusion h1

/-- Claim C6 as amended: any response whose inner text parses as a JSON
array is returned as-is, with no validation of its elements' shape; the
fallback to the original sequence happens only when the parsed value is
not an array (or the call fails earlier). -/
theorem C6_array_returned (jsonLoads : String → Option Json) (tables : List Json)
    (status : Nat) (j : Json) (text : String) (xs : List Json)
    (hs : httpSuccess status = true) (hit : innerText j = some text)
    (hjl : jsonLoads text = some (Json.arr xs)) :
    clean_tables_with_ollama jsonLoads tables
      (CallOutcome.response status (some j)) = xs := by
  simp [clean_tables_with_ollama, hs, hit, hjl]

/-- Witness for C6_array_returned at the concrete 200 response carrying
the array [1]. -/
theorem C6_array_returned_witness :
    httpSuccess 200 = true ∧
    clean_tables_with_ollama (fun _ => some (Json.arr [Json.num 1])) []
      (CallOutcome.response 200 (some (Json.obj [("response", Json.str "[1]")])))
      = [Json.num 1] :=
  ⟨rfl, C6_array_returned (fun _ => some (Json.arr [Json.num 1])) [] 200
    (Json.obj [("response", Json.str "[1]")]) (pyStrip "[1]") [Json.num 1]
    rfl rfl rfl⟩

/-! ## Helper lemmas about extract_tables -/

/-- Every table built for one page carries that page number. -/
theorem pageTablesGo_page : ∀ (raws : List RawGrid) (i k : Nat) (t : Table),
    t ∈ pageTablesGo i k raws → t.page = i := by
  intro raws
  induction raws with
  | nil => intro i k t h; simp [pageTablesGo] at h
  | cons raw rest ih =>
    intro i k t h
    rcases (List.mem_cons.mp h) with h | h
    · rw [h]
    · exact ih i (k + 1) t h

/-- The table_index values built for one page, from a given counter,
are consecutive. -/
theorem pageTablesGo_idx : ∀ (raws : List RawGrid) (i k : Nat),
    (pageTablesGo i k raws).map (fun t => t.table_index)
      = List.range' k raws.length := by
  intro raws
  induction raws with
  | nil => intro i k; rfl
  | cons raw rest ih =>
    intro i k
    simp only [pageTablesGo, List.map_cons, List.length_cons, List.range'_succ]
    rw [ih]

/-- As many tables as chosen grids. -/
theorem pageTablesGo_length (raws : List RawGrid) (i k : Nat) :
    (pageTablesGo i k raws).length = raws.length := by
  have h := congrArg List.length (pageTablesGo_idx raws i k)
  simpa using h

/-- table_index values built for one page are at least the counter. -/
theorem pageTablesGo_idx_ge : ∀ (raws : List RawGrid) (i k : Nat) (t : Table),
    t ∈ pageTablesGo i k raws → k ≤ t.table_index := by
  intro raws
  induction raws with
  | nil => intro i k t h; simp [pageTablesGo] at h
  | cons raw rest ih =>
    intro i k t h
    rcases (List.mem_cons.mp h) with h | h
    · rw [h]
    · exact Nat.le_of_succ_le (ih i (k + 1) t h)

/-- One page's tables are already in output order. -/
theorem pageTablesGo_chain : ∀ (raws : List RawGrid) (i k : Nat),
    List.Chain' pageLex (pageTablesGo i k raws) := by
  intro raws
  induction raws with
  | nil => intro i k; simp [pageTablesGo]
  | cons raw rest ih =>
    intro i k
    rw [pageTablesGo]
    refine List.chain'_cons'.mpr ⟨?_, ih i (k + 1)⟩
    intro b hb
    have hmem : b ∈ pageTablesGo i (k + 1) rest := List.mem_of_mem_head? hb
    right
    exact ⟨(pageTablesGo_page rest i (k + 1) b hmem).symm,
      Nat.lt_of_succ_le (pageTablesGo_idx_ge rest i (k + 1) b hmem)⟩

/-- Pages processed from counter k yield tables with page at least k. -/
theorem extractTablesGo_page_ge : ∀ (pages : List PageInput) (k : Nat) (t : Table),
    t ∈ extractTablesGo k pages → k ≤ t.page := by
  intro pages
  induction pages with
  | nil => intro k t h; simp [extractTablesGo] at h
  | cons pg rest ih =>
    intro k t h
    rcases List.mem_append.mp h with h | h
    · exact Nat.le_of_eq (pageTablesGo_page _ k 0 t h).symm
    · exact Nat.le_of_succ_le (ih (k + 1) t h)

/-- The full output is ordered by page, then table_index. -/
theorem extractTablesGo_chain : ∀ (pages : List PageInput) (k : Nat),
    List.Chain' pageLex (extractTablesGo k pages) := by
  intro pages
  induction pages with
  | nil => intro k; simp [extractTablesGo]
  | cons pg rest ih =>
    intro k
    rw [extractTablesGo]
    refine List.Chain'.append (pageTablesGo_chain _ k 0) (ih (k + 1)) ?_
    intro x hx y hy
    have hxm : x ∈ pageTablesGo k 0 (chosenGrids pg) :=
      List.mem_of_mem_getLast? hx
    have hym : y ∈ extractTablesGo (k + 1) rest := List.mem_of_mem_head? hy
    left
    calc x.page = k := pageTablesGo_page _ k 0 x hxm
      _ < k + 1 := Nat.lt_succ_self k
      _ ≤ y.page := extractTablesGo_page_ge rest (k + 1) y hym

/-- Per page, the emitted table_index values are exactly 0..N-1. -/
theorem extractTablesGo_filter_dense : ∀ (pages : List PageInput) (k p : Nat),
    (((extractTablesGo k pages).filter (fun t => t.page == p)).map
        fun t => t.table_index)
      = List.range
          (((extractTablesGo k pages).filter (fun t => t.page == p)).length) := by
  intro pages
  induction pages with
  | nil => intro k p; rfl
  | cons pg rest ih =>
    intro k p
    rw [extractTablesGo, pageTables, List.filter_append]
    by_cases hp : p = k
    · subst hp
      have hblock : (pageTablesGo p 0 (chosenGrids pg)).filter
          (fun t => t.page == p) = pageTablesGo p 0 (chosenGrids pg) :=
        List.filter_eq_self.mpr
          (fun t ht => by simp [pageTablesGo_page _ p 0 t ht])
      have hrest : (extractTablesGo (p + 1) rest).filter
          (fun t => t.page == p) = [] := by
        refine List.filter_eq_nil_iff.mpr (fun t ht => ?_)
        have := extractTablesGo_page_ge rest (p + 1) t ht
        simp only [beq_iff_eq]
        omega
      rw [hblock, hrest, List.append_nil, pageTablesGo_idx,
        pageTablesGo_length, List.range_eq_range']
    · have hblock : (pageTablesGo k 0 (chosenGrids pg)).filter
          (fun t => t.page == p) = [] := by
        refine List.filter_eq_nil_iff.mpr (fun t ht => ?_)
        have := pageTablesGo_page _ k 0 t ht
        simp only [beq_iff_eq]
        omega
      rw [hblock, List.nil_append]
      exact ih (k + 1) p

/-- Claim C8: in the output of extract_tables, the table_index values
of the tables on any given page are exactly 0..N-1 in order (N the
number of tables for that page), and the whole sequence is ordered by
page ascending then table_index ascending. -/
theorem C8_indexing_and_order (pages : List PageInput) :
    (∀ p : Nat,
      (((extract_tables pages).filter (fun t => t.page == p)).map
          fun t => t.table_index)
        = List.range
            (((extract_tables pages).filter (fun t => t.page == p)).length)) ∧
    List.Chain' pageLex (extract_tables pages) :=
  ⟨fun p => extractTablesGo_filter_dense pages 1 p, extractTablesGo_chain pages 1⟩

/-! ## Single steps of the CSV reader -/

theorem step_startRecord_cr (rows : List (List (List Char))) :
    stepChar ⟨CMode.startRecord, [], [], rows⟩ '\r'
      = ⟨CMode.eatCRNL, [], [], rows ++ [[]]⟩ := rfl

theorem step_startRecord_quote (rows : List (List (List Char))) :
    stepChar ⟨CMode.startRecord, [], [], rows⟩ '"'
      = ⟨CMode.inQuoted, [], [], rows⟩ := rfl

theorem step_startRecord_comma (rows : List (List (List Char))) :
    stepChar ⟨CMode.startRecord, [], [], rows⟩ ','
      = ⟨CMode.startField, [], [[]], rows⟩ := rfl

theorem step_startField_cr (row : List (List Char)) (rows : List (List (List Char))) :
    stepChar ⟨CMode.startField, [], row, rows⟩ '\r'
      = ⟨CMode.eatCRNL, [], [], rows ++ [row ++ [[]]]⟩ := rfl

theorem step_startField_quote (row : List (List Char)) (rows : List (List (List Char))) :
    stepChar ⟨CMode.startField, [], row, rows⟩ '"'
      = ⟨CMode.inQuoted, [], row, rows⟩ := rfl

theorem step_startField_comma (row : List (List Char)) (rows : List (List (List Char))) :
    stepChar ⟨CMode.startField, [], row, rows⟩ ','
      = ⟨CMode.startField, [], row ++ [[]], rows⟩ := rfl

theorem step_startField_other (row : List (List Char)) (rows : List (List (List Char)))
    (c : Char) (h1 : c ≠ '\r') (h2 : c ≠ '\n') (h3 : c ≠ '"') (h4 : c ≠ ',') :
    stepChar ⟨CMode.startField, [], row, rows⟩ c
      = ⟨CMode.inField, [c], row, rows⟩ := by
  simp [stepChar, h1, h2, h3, h4]

theorem step_inField_cr (f : List Char) (row : List (List Char))
    (rows : List (List (List Char))) :
    stepChar ⟨CMode.inField, f, row, rows⟩ '\r'
      = ⟨CMode.eatCRNL, [], [], rows ++ [row ++ [f]]⟩ := rfl

theorem step_inField_comma (f : List Char) (row : List (List Char))
    (rows : List (List (List Char))) :
    stepChar ⟨CMode.inField, f, row, rows⟩ ','
      = ⟨CMode.startField, [], row ++ [f], rows⟩ := rfl

theorem step_inField_other (f : List Char) (row : List (List Char))
    (rows : List (List (List Char))) (c : Char)
    (h1 : c ≠ '\r') (h2 : c ≠ '\n') (h4 : c ≠ ',') :
    stepChar ⟨CMode.inField, f, row, rows⟩ c
      = ⟨CMode.inField, f ++ [c], row, rows⟩ := by
  simp [stepChar, h1, h2, h4]

theorem step_inQuoted_quote (f : List Char) (row : List (List Char))
    (rows : List (List (List Char))) :
    stepChar ⟨CMode.inQuoted, f, row, rows⟩ '"'
      = ⟨CMode.quoteInQuoted, f, row, rows⟩ := rfl

theorem step_inQuoted_other (f : List Char) (row : List (List Char))
    (rows : List (List (List Char))) (c : Char) (h : c ≠ '"') :
    stepChar ⟨CMode.inQuoted, f, row, rows⟩ c
      = ⟨CMode.inQuoted, f ++ [c], row, rows⟩ := by
  simp [stepChar, h]

theorem step_quoteInQuoted_quote (f : List Char) (row : List (List Char))
    (rows : List (List (List Char))) :
    stepChar ⟨CMode.quoteInQuoted, f, row, rows⟩ '"'
      = ⟨CMode.inQuoted, f ++ ['"'], row, rows⟩ := rfl

theorem step_quoteInQuoted_comma (f : List Char) (row : List (List Char))
    (rows : List (List (List Char))) :
    stepChar ⟨CMode.quoteInQuoted, f, row, rows⟩ ','
      = ⟨CMode.startField, [], row ++ [f], rows⟩ := rfl

theorem step_quoteInQuoted_cr (f : List Char) (row : List (List Char))
    (rows : List (List (List Char))) :
    stepChar ⟨CMode.quoteInQuoted, f, row, rows⟩ '\r'
      = ⟨CMode.eatCRNL, [], [], rows ++ [row ++ [f]]⟩ := rfl

theorem step_eatCRNL_lf (rows : List (List (List Char))) :
    stepChar ⟨CMode.eatCRNL, [], [], rows⟩ '\n'
      = ⟨CMode.startRecord, [], [], rows⟩ := rfl

/-- At the start of a record with nothing pending, the reader treats
any character other than CR and LF exactly as at the start of a field. -/
theorem step_startRecord_eq_startField (c : Char) (rows : List (List (List Char)))
    (h1 : c ≠ '\r') (h2 : c ≠ '\n') :
    stepChar ⟨CMode.startRecord, [], [], rows⟩ c
      = stepChar ⟨CMode.startField, [], [], rows⟩ c := by
  by_cases hq : c = '"'
  · subst hq; rfl
  · by_cases hc : c = ','
    · subst hc; rfl
    · simp [stepChar, h1, h2, hq, hc]

/-- Unpack the negative quoting test on a single character. -/
theorem specialChar_false (c : Char) (h : specialChar c = false) :
    c ≠ ',' ∧ c ≠ '"' ∧ c ≠ '\r' ∧ c ≠ '\n' := by
  refine ⟨?_, ?_, ?_, ?_⟩ <;> intro heq <;> subst heq <;> simp [specialChar] at h

/-! ## Fold lemmas: the reader recovers what the writer wrote -/

/-- Inside quotes, reading the quote-doubled text appends exactly the
original text to the pending field. -/
theorem fold_quoted : ∀ (cs f : List Char) (row : List (List Char))
    (rows : List (List (List Char))) (rest : List Char),
    List.foldl stepChar ⟨CMode.inQuoted, f, row, rows⟩ (escapeQuotes cs ++ rest)
      = List.foldl stepChar ⟨CMode.inQuoted, f ++ cs, row, rows⟩ rest := by
  intro cs
  induction cs with
  | nil => intro f row rows rest; simp [escapeQuotes]
  | cons c cs ih =>
    intro f row rows rest
    by_cases hc : c = '"'
    · subst hc
      simp only [escapeQuotes, if_pos, List.cons_append, List.foldl_cons,
        step_inQuoted_quote, step_quoteInQuoted_quote]
      rw [ih]
      simp
    · simp only [escapeQuotes, if_neg hc, List.cons_append, List.foldl_cons,
        step_inQuoted_other f row rows c hc]
      rw [ih]
      simp

/-- Inside an unquoted field, reading non-special text appends it to
the pending field. -/
theorem fold_unquoted : ∀ (cs : List Char), (∀ x ∈ cs, specialChar x = false) →
    ∀ (f : List Char) (row : List (List Char)) (rows : List (List (List Char)))
      (rest : List Char),
    List.foldl stepChar ⟨CMode.inField, f, row, rows⟩ (cs ++ rest)
      = List.foldl stepChar ⟨CMode.inField, f ++ cs, row, rows⟩ rest := by
  intro cs
  induction cs with
  | nil => intro _ f row rows rest; simp
  | cons c cs ih =>
    intro hall f row rows rest
    obtain ⟨_, _, h1, h2⟩ := specialChar_false c (hall c (by simp))
    have h4 : c ≠ ',' := (specialChar_false c (hall c (by simp))).1
    simp only [List.cons_append, List.foldl_cons,
      step_inField_other f row rows c h1 h2 h4]
    rw [ih (fun x hx => hall x (by simp [hx]))]
    simp

/-- An encoded field is nonempty and never starts with CR or LF when
the field itself is nonempty. -/
theorem encodeField_head (f : List Char) (hf : f ≠ []) :
    ∃ c cs, encodeField f = c :: cs ∧ c ≠ '\r' ∧ c ≠ '\n' := by
  by_cases hq : needsQuote f = true
  · exact ⟨'"', escapeQuotes f ++ ['"'], by simp [encodeField, hq],
      by decide, by decide⟩
  · cases f with
    | nil => exact absurd rfl hf
    | cons c cs =>
      have hq' : needsQuote (c :: cs) = false := by simpa using hq
      have hc : specialChar c = false := by
        have h2 := hq'
        simp only [needsQuote, List.any_cons, Bool.or_eq_false_iff] at h2
        exact h2.1
      obtain ⟨_, _, h3, h4⟩ := specialChar_false c hc
      exact ⟨c, cs, by simp [encodeField, hq], h3, h4⟩

/-- Reading one encoded field followed by a delimiter, from the start
of a field, appends that field to the pending record. -/
theorem fold_field_comma (f : List Char) (row : List (List Char))
    (rows : List (List (List Char))) (rest : List Char) :
    List.foldl stepChar ⟨CMode.startField, [], row, rows⟩
        (encodeField f ++ ',' :: rest)
      = List.foldl stepChar ⟨CMode.startField, [], row ++ [f], rows⟩ rest := by
  by_cases hq : needsQuote f = true
  · simp only [encodeField, if_pos hq, List.cons_append, List.foldl_cons,
      step_startField_quote, List.append_assoc]
    rw [fold_quoted]
    simp only [List.nil_append, List.singleton_append, List.cons_append,
      List.foldl_cons, step_inQuoted_quote, step_quoteInQuoted_comma]
  · cases f with
    | nil =>
      simp only [encodeField, needsQuote, List.any_nil, Bool.false_eq_true,
        if_false, List.nil_append, List.foldl_cons, step_startField_comma]
    | cons c cs =>
      have hq' : needsQuote (c :: cs) = false := by simpa using hq
      have hall : ∀ x ∈ c :: cs, specialChar x = false := by
        simpa [needsQuote, List.any_eq_false] using hq'
      obtain ⟨h4, h3, h1, h2⟩ := specialChar_false c (hall c (by simp))
      simp only [encodeField, hq', Bool.false_eq_true, if_false,
        List.cons_append, List.foldl_cons,
        step_startField_other row rows c h1 h2 h3 h4]
      rw [fold_unquoted cs (fun x hx => hall x (by simp [hx]))]
      simp only [List.singleton_append, List.foldl_cons, step_inField_comma]

/-- Reading one encoded field followed by the record terminator, from
the start of a field, emits the pending record extended with that
field. -/
theorem fold_field_crlf (f : List Char) (row : List (List Char))
    (rows : List (List (List Char))) (rest : List Char) :
    List.foldl stepChar ⟨CMode.startField, [], row, rows⟩
        (encodeField f ++ '\r' :: '\n' :: rest)
      = List.foldl stepChar ⟨CMode.startRecord, [], [], rows ++ [row ++ [f]]⟩
          rest := by
  by_cases hq : needsQuote f = true
  · simp only [encodeField, if_pos hq, List.cons_append, List.foldl_cons,
      step_startField_quote, List.append_assoc]
    rw [fold_quoted]
    simp only [List.nil_append, List.singleton_append, List.cons_append,
      List.foldl_cons, step_inQuoted_quote, step_quoteInQuoted_cr,
      step_eatCRNL_lf]
  · cases f with
    | nil =>
      simp only [encodeField, needsQuote, List.any_nil, Bool.false_eq_true,
        if_false, List.nil_append, List.foldl_cons, step_startField_cr,
        step_eatCRNL_lf]
    | cons c cs =>
      have hq' : needsQuote (c :: cs) = false := by simpa using hq
      have hall : ∀ x ∈ c :: cs, specialChar x = false := by
        simpa [needsQuote, List.any_eq_false] using hq'
      obtain ⟨h4, h3, h1, h2⟩ := specialChar_false c (hall c (by simp))
      simp only [encodeField, hq', Bool.false_eq_true, if_false,
        List.cons_append, List.foldl_cons,
        step_startField_other row rows c h1 h2 h3 h4]
      rw [fold_unquoted cs (fun x hx => hall x (by simp [hx]))]
      simp only [List.singleton_append, List.foldl_cons, step_inField_cr,
        step_eatCRNL_lf]

/-- Reading a joined nonempty field list followed by the record
terminator emits the pending record extended with those fields. -/
theorem fold_joinFields : ∀ (fs : List (List Char)), fs ≠ [] →
    ∀ (row : List (List Char)) (rows : List (List (List Char))) (rest : List Char),
    List.foldl stepChar ⟨CMode.startField, [], row, rows⟩
        (joinFields fs ++ '\r' :: '\n' :: rest)
      = List.foldl stepChar ⟨CMode.startRecord, [], [], rows ++ [row ++ fs]⟩
          rest := by
  intro fs
  induction fs with
  | nil => intro h; exact absurd rfl h
  | cons f fs ih =>
    intro _ row rows rest
    cases fs with
    | nil => exact fold_field_crlf f row rows rest
    | cons g t =>
      simp only [joinFields, List.append_assoc, List.cons_append]
      rw [fold_field_comma]
      rw [ih (by simp) (row ++ [f]) rows rest]
      simp

/-- Reading one written row from the start of a record appends exactly
that row to the emitted records. -/
theorem fold_writeRow (r : List (List Char)) (acc : List (List (List Char)))
    (rest : List Char) :
    List.foldl stepChar ⟨CMode.startRecord, [], [], acc⟩ (writeRow r ++ rest)
      = List.foldl stepChar ⟨CMode.startRecord, [], [], acc ++ [r]⟩ rest := by
  cases r with
  | nil =>
    simp only [writeRow, joinFields, List.nil_append, List.cons_append,
      List.foldl_cons, step_startRecord_cr, step_eatCRNL_lf]
  | cons f fs =>
    cases fs with
    | nil =>
      by_cases hf : f = []
      · subst hf
        simp only [writeRow, List.isEmpty_nil, if_true, List.cons_append,
          List.foldl_cons, step_startRecord_quote, step_inQuoted_quote,
          step_quoteInQuoted_cr, step_eatCRNL_lf, List.nil_append]
      · obtain ⟨c, cs, hce, h1, h2⟩ := encodeField_head f hf
        have hie : f.isEmpty = false := by
          simpa [List.isEmpty_iff] using hf
        simp only [writeRow, hie, Bool.false_eq_true, if_false,
          List.append_assoc, List.cons_append, List.nil_append]
        rw [hce, List.cons_append, List.foldl_cons,
          step_startRecord_eq_startField c acc h1 h2, ← List.foldl_cons,
          ← List.cons_append, ← hce]
        exact fold_field_crlf f [] acc rest
    | cons g t =>
      simp only [writeRow, joinFields, List.append_assoc, List.cons_append]
      by_cases hf : f = []
      · subst hf
        have he : encodeField [] = [] := by
          simp [encodeField, needsQuote]
        rw [he]
        simp only [List.nil_append, List.foldl_cons, step_startRecord_comma]
        rw [fold_joinFields (g :: t) (by simp) [[]] acc rest]
        simp
      · obtain ⟨c, cs, hce, h1, h2⟩ := encodeField_head f hf
        rw [hce, List.cons_append, List.foldl_cons,
          step_startRecord_eq_startField c acc h1 h2, ← List.foldl_cons,
          ← List.cons_append, ← hce]
        rw [fold_field_comma f [] acc _]
        simp only [List.nil_append]
        rw [fold_joinFields (g :: t) (by simp) [f] acc rest]
        simp

/-- Reading a written sequence of rows appends exactly those rows. -/
theorem fold_writeRows : ∀ (rs : List (List (List Char)))
    (acc : List (List (List Char))),
    List.foldl stepChar ⟨CMode.startRecord, [], [], acc⟩
        ((rs.map writeRow).flatten)
      = ⟨CMode.startRecord, [], [], acc ++ rs⟩ := by
  intro rs
  induction rs with
  | nil => intro acc; simp
  | cons r rs ih =>
    intro acc
    simp only [List.map_cons, List.flatten_cons]
    rw [fold_writeRow, ih]
    simp

/-! ## Claims about the CSV export -/

/-- Claim C9, counterexample: a stored table with empty headers and one
data row exports with no header line, so re-parsing the CSV does not
reconstruct the empty headers plus the row — the data row is read back
in the headers position. -/
theorem C9_counterexample :
    parseCSV (writeTableCsv [] [[some "a"]])
      ≠ (([] : List String).map String.data)
          :: [[some "a"]].map (fun r => r.map collapseCell) := by
  decide

/-- Claim C9 as amended: for every table whose headers are non-empty,
exporting to CSV and re-parsing reconstructs the headers exactly and
each data row up to the collapse of the absent-value marker to the
empty string. -/
theorem C9_csv_roundtrip (hs : List String) (rows : List (List Cell))
    (hne : hs ≠ []) :
    parseCSV (writeTableCsv hs rows)
      = (hs.map String.data) :: rows.map (fun r => r.map collapseCell) := by
  have hie : hs.isEmpty = false := by simpa [List.isEmpty_iff] using hne
  have hdr : rows.map writeDataRow
      = (rows.map (fun r => r.map collapseCell)).map writeRow := by
    simp [writeDataRow, Function.comp_def]
  rw [parseCSV, writeTableCsv, hie, hdr, initSt]
  simp only [Bool.false_eq_true, if_false]
  rw [fold_writeRow, fold_writeRows]
  simp [finishCsv]

/-- Witness for C9_csv_roundtrip on a one-column table with an absent
cell value. -/
theorem C9_csv_roundtrip_witness :
    parseCSV (writeTableCsv ["h"] [[none, some "v"]])
      = ((["h"] : List String).map String.data)
          :: [[none, some "v"]].map (fun r => r.map collapseCell) :=
  C9_csv_roundtrip ["h"] [[none, some "v"]] (by decide)

/-- Claim C10: when a stored table's headers are empty, both CSV export
surfaces write no header line at all — the output is exactly the
concatenation of the written data rows — and the degenerate table with
no headers and no rows exports as the empty CSV text. -/
theorem C10_no_header_row (t : Table) (h : t.headers = []) :
    export_single_csv t = (t.rows.map writeDataRow).flatten ∧
    export_all_zip [t]
      = [(csvName t.page t.table_index, (t.rows.map writeDataRow).flatten)] ∧
    (t.rows = [] → export_single_csv t = []) := by
  have hw : writeTableCsv t.headers t.rows = (t.rows.map writeDataRow).flatten := by
    rw [writeTableCsv, h]
    simp
  refine ⟨?_, ?_, ?_⟩
  · rw [export_single_csv, hw]
  · rw [export_all_zip, List.map_cons, hw]
    rfl
  · intro hr
    rw [export_single_csv, hw, hr]
    rfl

/-- Witness for C10_no_header_row at the degenerate empty table. -/
theorem C10_no_header_row_witness :
    export_single_csv ⟨1, 0, [], []⟩ = [] :=
  (C10_no_header_row ⟨1, 0, [], []⟩ rfl).2.2 rfl

end PdfExtractor
